/-
Verification of the edubot context-assembly and feedback-correlation engine
(`src/edubot/bot.py`) against its natural-language specification.

The Python source is shallowly embedded below.  Timestamps (Python
`datetime`) are modelled as integers counting seconds, so a
`timedelta(minutes=1, seconds=30)` becomes the integer `90`.  Python float
arithmetic in `estimate_tokens` only ever manipulates dyadic rationals whose
numerators are far below 2^53 (`len(text)/4`, `count*0.75`, their average),
so every intermediate float is exact and the computation is embedded
faithfully over `ℚ`.  Database rows and sessions are modelled by explicit
state passing over a `DB` record; each `session.commit()` boundary in the
source corresponds to a new `DB` value, and reads performed through a fresh
`Session` (as the private helpers do) read the committed state.

The ORM schema (`edubot/sql.py`) and the `MessageInfo`/`CompletionInfo`
typed dicts (`edubot/types.py`) are imported by `bot.py` but are not part of
the reviewed source tree; their record shapes are modelled from the spec,
§3 "DATA MODEL" (Bot `{username, platform}` + id, Thread `{thread_name,
platform}` + id, Message `{thread_id, username, text, timestamp}` + id,
Completion `{bot_id, text, reply_to_message_id, score}` + id).
-/
import Mathlib

namespace Edubot

/-- Modelled from the spec: `MessageInfo` (edubot/types.py is not in the
reviewed sources): one chat message as handed over by an integration,
`{username, text, timestamp}`.  Field names follow the dict keys used by
`bot.py`: `username`, `message`, `time`. -/
structure MessageInfo where
  username : String
  message : String
  time : Int
deriving DecidableEq

/-- Modelled from the spec: `CompletionInfo` (edubot/types.py is not in the
reviewed sources): the `{text, timestamp}` pair describing a feedback
event's target, with the dict keys `bot.py` reads: `message`, `time`. -/
structure CompletionInfo where
  message : String
  time : Int
deriving DecidableEq

/-- Modelled from the spec (§3): a row of the `bot` table. -/
structure BotRow where
  id : Nat
  username : String
  platform : String
deriving DecidableEq

/-- Modelled from the spec (§3): a row of the `thread` table. -/
structure ThreadRow where
  id : Nat
  thread_name : String
  platform : String
deriving DecidableEq

/-- Modelled from the spec (§3): a row of the `message` table. -/
structure MessageRow where
  id : Nat
  thread : Nat
  username : String
  message : String
  time : Int
deriving DecidableEq

/-- Modelled from the spec (§3): a row of the `completion` table. -/
structure CompletionRow where
  id : Nat
  bot : Nat
  message : String
  reply_to : Nat
  score : Int
deriving DecidableEq

/-- Modelled from the spec (§3, §6 "Entity Store"): the committed database
state, one list per table, in insertion order. -/
structure DB where
  bots : List BotRow
  threads : List ThreadRow
  messages : List MessageRow
  completions : List CompletionRow
deriving DecidableEq

/-- bot.py line 25: `MAX_GPT_TOKENS = 7200`. -/
def MAX_GPT_TOKENS : Int := 7200

/-- Python `round` on a float: round to the nearest integer, ties to even
(banker's rounding).  All call sites feed it exact dyadic rationals, so the
float rounding and this rational rounding agree. -/
def pythonRound (q : ℚ) : Int :=
  if q - ⌊q⌋ < 1/2 then ⌊q⌋
  else if 1/2 < q - ⌊q⌋ then ⌊q⌋ + 1
  else if ⌊q⌋ % 2 = 0 then ⌊q⌋ else ⌊q⌋ + 1

/-- Python `text.split(" ")`: split on every single space character.
`"".split(" ") = [""]` and consecutive spaces produce empty segments, so
the number of segments is always (number of spaces) + 1. -/
def pySplitSpace : List Char → List (List Char)
  | [] => [[]]
  | c :: rest =>
    if c = ' ' then [] :: pySplitSpace rest
    else
      match pySplitSpace rest with
      | [] => [[c]]
      | seg :: segs => (c :: seg) :: segs

/-- bot.py lines 49-61: `estimate_tokens`.  `est1 = len(text) / 4`,
`est2 = len(text.split(" ")) * 0.75`, result `round((est1 + est2) / 2)`.
The float arithmetic is exact (dyadic rationals), embedded over `ℚ`. -/
def estimate_tokens (text : String) : Int :=
  let est1 : ℚ := (text.length : ℚ) / 4
  let est2 : ℚ := ((pySplitSpace text.data).length : ℚ) * (3/4)
  pythonRound ((est1 + est2) / 2)

/-- Integer form of `pythonRound (n / 8)` for a natural `n`: used to settle
concrete values of `estimate_tokens` without rational arithmetic. -/
def roundDiv8 (n : Nat) : Nat :=
  let q := n / 8
  let r := n % 8
  if r < 4 then q
  else if 4 < r then q + 1
  else if q % 2 = 0 then q else q + 1

/-- One entry of the GPT-format context built by `__format_context`
(bot.py lines 186-193): a `{"role": ..., "content": ...}` dict. -/
structure GptMsg where
  role : String
  content : String
deriving DecidableEq

/-- bot.py lines 186-193: one loop iteration of `__format_context`: role is
"assistant" iff the author is this bot, content is `"username: message"`. -/
def formatEntry (botUsername : String) (m : MessageInfo) : GptMsg :=
  { role := if m.username = botUsername then "assistant" else "user"
    content := m.username ++ ": " ++ m.message }

/-- The running `token_count` of `__format_context`: the sum of
`estimate_tokens` over the entry contents. -/
def totalTokens (g : List GptMsg) : Int :=
  (g.map (fun e => estimate_tokens e.content)).sum

/-- bot.py lines 197-198: `while token_count > MAX_GPT_TOKENS:
token_count -= estimate_tokens(gpt_context.pop(0)["content"])`.
`t` is the running token count.  On the empty list the Python loop would
raise `IndexError` from `pop(0)` if `t > MAX_GPT_TOKENS`, but the loop is
only ever entered with `t` equal to the true total, which is `0` for the
empty list, so that branch is unreachable and modelled as returning `[]`. -/
def trimWhile : Int → List GptMsg → List GptMsg
  | _, [] => []
  | t, e :: rest =>
    if MAX_GPT_TOKENS < t then trimWhile (t - estimate_tokens e.content) rest
    else e :: rest

/-- bot.py lines 182-198: the conversational part of `__format_context`
(format every message, then trim oldest-first to the token budget).  The
constant system messages appended afterwards (lines 200-222) are not
counted against the budget and are omitted here. -/
def format_context (botUsername : String) (ctx : List MessageInfo) : List GptMsg :=
  let g := ctx.map (formatEntry botUsername)
  trimWhile (totalTokens g) g

/-- bot.py lines 325-334: one `for extra_msg in existing_context:` scan with
`existing_context.remove(extra_msg)` inside the body.  CPython's list
iterator keeps a cursor `k`; `next()` yields `l[k]` and increments `k`, and
`remove` deletes the first element equal to the yielded one, shifting later
elements down — so after a removal the element that moved into the freed
slot is never yielded.  `fuel` bounds the number of iterations; it is
always called with `fuel = l.length`, which the cursor argument shows is
enough, so the `0` case is unreachable. -/
def pyScanFuel (pred : MessageInfo → Bool) :
    Nat → List MessageInfo → Nat → List MessageInfo × List MessageInfo
  | 0, l, _ => ([], l)
  | Nat.succ n, l, k =>
    if h : k < l.length then
      let e := l.get ⟨k, h⟩
      if pred e then
        let r := pyScanFuel pred n (l.erase e) (k + 1)
        (e :: r.1, r.2)
      else pyScanFuel pred n l (k + 1)
    else ([], l)

/-- The full scan of the mutable `existing_context` pool: returns the
entries appended to `complete_context` (in encounter order) and the pool
that remains afterwards. -/
def pyScan (pred : MessageInfo → Bool) (l : List MessageInfo) :
    List MessageInfo × List MessageInfo :=
  pyScanFuel pred l.length l 0

/-- bot.py lines 323-336: the merge walk over `new_context`.  For window
entry `m` with predecessor `prev`, a pool entry `e` is placed when
`e.time < m.time` and (when `prev` exists) `e.time > prev.time`; the
placed entries precede `m` in the output. -/
def mergeGo : List MessageInfo → Option MessageInfo → List MessageInfo → List MessageInfo
  | _, _, [] => []
  | pool, prev, m :: rest =>
    let pred : MessageInfo → Bool := fun e =>
      decide (e.time < m.time) &&
        (match prev with
         | none => true
         | some p => decide (p.time < e.time))
    let s := pyScan pred pool
    s.1 ++ m :: mergeGo s.2 (some m) rest

/-- The `complete_context` built by `gpt_answer` from the window
(`new_context`) and the extra pool (`existing_context`). -/
def completeContext (pool window : List MessageInfo) : List MessageInfo :=
  mergeGo pool none window

/-- bot.py lines 305-318: `existing_context`: store messages of this thread
with `time > new_context[0].time`, converted to `MessageInfo`, keeping
those not structurally present in `new_context`, in store order.
`gpt_answer` indexes `new_context[0]`, so it requires a non-empty window;
the `[]` case is unreachable and returns the empty pool. -/
def buildExtraPool (db : DB) (threadId : Nat) (window : List MessageInfo) :
    List MessageInfo :=
  match window with
  | [] => []
  | w0 :: _ =>
    ((db.messages.filter
        (fun m => m.thread == threadId && decide (w0.time < m.time))).map
      (fun m => ⟨m.username, m.message, m.time⟩)).filter
      (fun mi => !(window.contains mi))

/-- bot.py lines 92-106: `__get_bot`: `select(Bot)` filtered by username and
this platform, `fetchone` — the first matching row, or `None`. -/
def get_bot (db : DB) (platform username : String) : Option BotRow :=
  (db.bots.filter (fun b => b.username == username && b.platform == platform)).head?

/-- bot.py lines 136-150: `__get_thread`: `select(Thread)` filtered by
thread name and this platform, `fetchone`. -/
def get_thread (db : DB) (platform name : String) : Option ThreadRow :=
  (db.threads.filter
    (fun t => t.thread_name == name && t.platform == platform)).head?

/-- bot.py lines 119-134: `__get_message`.  The query filters `Message` on
the `{username, message, time}` tuple and adds `Thread.platform ==
self.platform` WITHOUT any join condition between `Message` and `Thread`,
so SQLAlchemy emits a cross join `FROM message, thread`: a message row is
returned exactly when its tuple matches AND at least one thread row of this
platform exists, regardless of which thread owns the message. -/
def get_message (db : DB) (platform : String) (mi : MessageInfo) : Option MessageRow :=
  if db.threads.any (fun t => t.platform == platform) then
    (db.messages.filter
      (fun m =>
        m.username == mi.username && m.message == mi.message &&
          m.time == mi.time)).head?
  else none

/-- The next autoincrement id for the `thread` table. -/
def nextThreadId (db : DB) : Nat :=
  db.threads.foldr (fun t acc => max t.id acc) 0 + 1

/-- The next autoincrement id for the `message` table. -/
def nextMessageId (db : DB) : Nat :=
  db.messages.foldr (fun m acc => max m.id acc) 0 + 1

/-- The next autoincrement id for the `completion` table. -/
def nextCompletionId (db : DB) : Nat :=
  db.completions.foldr (fun c acc => max c.id acc) 0 + 1

/-- bot.py lines 295-301 (and 254-259, 513-517): look the thread up; if it
does not exist, insert it and commit.  Returns the committed state and the
id of the thread used. -/
def ensureThread (db : DB) (platform name : String) : DB × Nat :=
  match get_thread db platform name with
  | some t => (db, t.id)
  | none =>
    let t : ThreadRow := ⟨nextThreadId db, name, platform⟩
    ({ db with threads := db.threads ++ [t] }, t.id)

/-- bot.py lines 338-344: whether a window entry survives the two skip
checks of the persist loop: it must not already be stored (`__get_message`)
and its author must not be any known bot of this platform (`__get_bot`).
Both helpers open their own `Session`, so they read the committed state
`db`, not the adds pending in the outer session. -/
def persistKeep (db : DB) (platform : String) (mi : MessageInfo) : Bool :=
  !(get_message db platform mi).isSome &&
    !(get_bot db platform mi.username).isSome

/-- Assign consecutive autoincrement ids to the kept window entries, all
under the given thread. -/
def assignIds : Nat → Nat → List MessageInfo → List MessageRow
  | _, _, [] => []
  | n, tid, mi :: rest =>
    ⟨n, tid, mi.username, mi.message, mi.time⟩ :: assignIds (n + 1) tid rest

/-- bot.py lines 294-351: the store effect of `gpt_answer`'s merge+persist
step: ensure the thread exists (committed at line 301), then walk
`new_context`, `session.add` each entry that passes both skip checks, and
commit once at line 351.  The skip checks read the committed state (the
state right after the thread commit), so all adds of one call are checked
against the same snapshot. -/
def gptPersist (db : DB) (platform threadName : String)
    (window : List MessageInfo) : DB :=
  let p := ensureThread db platform threadName
  let kept := window.filter (persistKeep p.1 platform)
  { p.1 with messages := p.1.messages ++ assignIds (nextMessageId p.1) p.2 kept }

/-- bot.py lines 152-167: `__add_completion`: resolve the replied-to
message via `__get_message` and insert a completion row for this bot.  When
`__get_message` returns `None` Python would raise `AttributeError` on
`.id`; every call site has just ensured the message exists, so that branch
is unreachable and modelled as a no-op. -/
def add_completion (db : DB) (botPk : Nat) (platform text_ : String)
    (replyTo : MessageInfo) : DB :=
  match get_message db platform replyTo with
  | none => db
  | some m =>
    { db with
      completions :=
        db.completions ++ [⟨nextCompletionId db, botPk, text_, m.id, 0⟩] }

/-- bot.py lines 400-412: the WHERE clauses of the correlation query.  The
joins follow the foreign keys of §3: `Completion.bot → Bot.id`,
`Completion.reply_to → Message.id`, `Message.thread → Thread.id`.  The
lookback bounds are `delta < Message.time` and `Message.time <
completion["time"]` with `delta = completion["time"] - 90` seconds — both
bounds strict. -/
def completionMatches (db : DB) (botPk : Nat) (fb : CompletionInfo)
    (threadName : String) (c : CompletionRow) : Bool :=
  c.message == fb.message && c.bot == botPk &&
    db.bots.any (fun b => b.id == c.bot) &&
    db.messages.any (fun m =>
      m.id == c.reply_to &&
        db.threads.any (fun t => t.id == m.thread && t.thread_name == threadName) &&
        decide (fb.time - 90 < m.time) && decide (m.time < fb.time))

/-- One step of scanning for the row with the largest id: keep the larger. -/
def stepLatest (acc : Option CompletionRow) (c : CompletionRow) :
    Option CompletionRow :=
  match acc with
  | none => some c
  | some a => if a.id < c.id then some c else some a

/-- The row with the largest id among a list of rows, if any. -/
def pickLatest (l : List CompletionRow) : Option CompletionRow :=
  l.foldl stepLatest none

/-- bot.py lines 400-412: `order_by(desc(Completion.id))` + `fetchone`: the
matching completion with the largest id, if any. -/
def selectCompletion (db : DB) (botPk : Nat) (fb : CompletionInfo)
    (threadName : String) : Option CompletionRow :=
  pickLatest (db.completions.filter (completionMatches db botPk fb threadName))

/-- bot.py lines 377-427: `change_completion_score`: if the query matches
nothing, log and return; otherwise add `offset` to the matched completion's
score and commit. -/
def change_completion_score (db : DB) (botPk : Nat) (offset : Int)
    (fb : CompletionInfo) (threadName : String) : DB :=
  match selectCompletion db botPk fb threadName with
  | none => db
  | some c =>
    { db with
      completions :=
        db.completions.map (fun x =>
          if x.id = c.id then { x with score := x.score + offset } else x) }

/-- The whitespace class of Python's `str.strip` / `str.lstrip` (the ASCII
part, which covers every string these functions are applied to here). -/
def isPySpace (c : Char) : Bool :=
  c == ' ' || c == '\t' || c == '\n' || c == '\x0d' || c == '\x0b' || c == '\x0c'

/-- Python `str.lstrip()`: drop leading whitespace. -/
def pyLstrip (s : List Char) : List Char :=
  s.dropWhile isPySpace

/-- Python `str.strip()`: drop leading and trailing whitespace. -/
def pyStrip (s : List Char) : List Char :=
  ((pyLstrip s).reverse.dropWhile isPySpace).reverse

/-- Python `str.replace(pat, rep)` for a non-empty `pat`: scan left to
right; at each position, if `pat` matches, emit `rep` and continue after
the match, otherwise keep the character.  `fuel` bounds the scan; it is
always called with `fuel = s.length`, which suffices because every step
consumes at least one character. -/
def pyReplaceFuel (pat rep : List Char) : Nat → List Char → List Char
  | _, [] => []
  | 0, s => s
  | Nat.succ n, c :: rest =>
    if pat ≠ [] ∧ pat.isPrefixOf (c :: rest) then
      rep ++ pyReplaceFuel pat rep n ((c :: rest).drop pat.length)
    else c :: pyReplaceFuel pat rep n rest

/-- Python `str.replace(pat, rep)` (with non-empty `pat`). -/
def pyReplace (pat rep s : List Char) : List Char :=
  pyReplaceFuel pat rep s.length s

/-- The echo pattern of bot.py line 369: `f"{self.username}: "`. -/
def echoPat (username : List Char) : List Char :=
  username ++ [':', ' ']

/-- bot.py line 369: `completion.replace(f"{self.username}: ",
"").lstrip()` — replace every occurrence of the pattern, then strip
leading whitespace. -/
def stripEcho (username s : List Char) : List Char :=
  pyLstrip (pyReplace (echoPat username) [] s)

/-- Whether `pat` occurs as a contiguous substring of `s`. -/
def hasOcc (pat s : List Char) : Bool :=
  s.tails.any (fun t => pat.isPrefixOf t)

/-- Python `str.upper()` (ASCII behaviour suffices for the `"NO CONTENT"`
check). -/
def pyUpper (s : List Char) : List Char :=
  s.map Char.toUpper

/-- bot.py lines 489-490: `while estimate_tokens(text) > MAX_GPT_TOKENS:
text = text[:-100]`.  Each iteration shortens a non-empty text, and
`estimate_tokens("") = 0`, so the loop terminates; `fuel = s.length`
iterations always suffice. -/
def truncateFuel : Nat → List Char → List Char
  | 0, s => s
  | Nat.succ n, s =>
    if decide (MAX_GPT_TOKENS < estimate_tokens (String.mk s)) && !s.isEmpty then
      truncateFuel n (s.take (s.length - 100))
    else s

/-- The summarisation input after the token-budget truncation loop. -/
def truncateText (s : List Char) : List Char :=
  truncateFuel s.length s

/-- bot.py lines 465-530: `summarise_url`.  The collaborator outcomes are
inputs to the model: `fetchResp` is `trafilatura.fetch_url(url)` (`none` =
Python `None`), `extractResult` is `trafilatura.extract(resp)`, and
`gptResult` is the OpenAI call outcome (`none` = `OpenAIError`).  Returns
the committed database and the Python return value. -/
def summarise_url (db : DB) (botPk : Nat) (platform : String)
    (fetchResp : Option String) (extractResult : Option String)
    (gptResult : Option String) (msg : MessageInfo) (threadName : String) :
    DB × Option String :=
  match fetchResp with
  | none => (db, none)
  | some r =>
    if r = "" then (db, none)
    else
      match extractResult with
      | none => (db, none)
      | some text_ =>
        let _query := truncateText text_.data
        match gptResult with
        | none => (db, none)
        | some ct =>
          if hasOcc "NO CONTENT".data (pyUpper ct.data) then (db, none)
          else
            let ct' := String.mk (pyStrip ct.data)
            let p := ensureThread db platform threadName
            let db2 :=
              if (get_message p.1 platform msg).isSome then p.1
              else
                { p.1 with
                  messages :=
                    p.1.messages ++
                      [⟨nextMessageId p.1, p.2, msg.username, msg.message,
                        msg.time⟩] }
            (add_completion db2 botPk platform ct' msg, some ct')

/-- Modelled from the claim's words, for comparison only: the
whitespace-delimited word count (Python's argument-less `text.split()`:
maximal runs of non-whitespace characters). -/
def wsWords (s : List Char) : Nat :=
  (s.foldl
    (fun (acc : Nat × Bool) c =>
      if isPySpace c then (acc.1, false)
      else if acc.2 then acc else (acc.1 + 1, true))
    (0, false)).1

/-- Modelled from the claim's words, for comparison only: the token
estimate the claim describes — the rounded average of `len(text)/4` and
the whitespace-delimited word count times 0.75. -/
def estimateClaimWS (text : String) : Int :=
  pythonRound (((text.length : ℚ) / 4 + (wsWords text.data : ℚ) * (3/4)) / 2)

/-
Example stores and inputs used by the concrete theorems below.
-/

/-- A window of two messages at times 0 and 10. -/
def c1Window : List MessageInfo := [⟨"alice", "one", 0⟩, ⟨"alice", "two", 10⟩]

/-- A store holding two extra messages of thread 1 timestamped 3 and 5 —
both strictly between the two window entries. -/
def c1db : DB :=
  { bots := []
    threads := [⟨1, "T", "p"⟩]
    messages := [⟨1, 1, "carol", "pic1", 3⟩, ⟨2, 1, "carol", "pic2", 5⟩]
    completions := [] }

/-- A store holding one extra message of thread 1 timestamped 20 — at or
after every window entry. -/
def c7db : DB :=
  { bots := []
    threads := [⟨1, "T", "p"⟩]
    messages := [⟨1, 1, "carol", "late", 20⟩]
    completions := [] }

/-- A store with two threads "A" and "B" on platform "p" and one message
whose `{username, text, timestamp}` tuple lives under thread "A". -/
def c3db : DB :=
  { bots := []
    threads := [⟨1, "A", "p"⟩, ⟨2, "B", "p"⟩]
    messages := [⟨1, 1, "u", "hi", 5⟩]
    completions := [] }

/-- A store with one bot, one thread, one message at time 10 and one
completion of that bot replying to that message. -/
def c2db : DB :=
  { bots := [⟨1, "bot", "p"⟩]
    threads := [⟨1, "T", "p"⟩]
    messages := [⟨1, 1, "u", "q", 10⟩]
    completions := [⟨1, 1, "resp", 1, 0⟩] }

/-- The empty store. -/
def emptyDb : DB := ⟨[], [], [], []⟩

/-
Helper lemmas: exact integer form of the token estimator.
-/

theorem pythonRound_natDiv8 (n : ℕ) :
    pythonRound ((n : ℚ) / 8) = (roundDiv8 n : ℤ) := by
  obtain ⟨q, r, hr, rfl⟩ : ∃ q r, r < 8 ∧ n = 8 * q + r :=
    ⟨n / 8, n % 8, Nat.mod_lt _ (by norm_num), by omega⟩
  have hsplit : ((8 * q + r : ℕ) : ℚ) / 8 = (q : ℚ) + (r : ℚ) / 8 := by
    push_cast; ring
  have hfloor : ⌊(q : ℚ) + (r : ℚ) / 8⌋ = (q : ℤ) := by
    rw [Int.floor_eq_iff]
    constructor
    · push_cast
      have : (0 : ℚ) ≤ (r : ℚ) / 8 := by positivity
      linarith
    · push_cast
      have : (r : ℚ) / 8 < 1 := by
        rw [div_lt_one (by norm_num : (0 : ℚ) < 8)]
        exact_mod_cast hr
      linarith
  have hfrac : ((q : ℚ) + (r : ℚ) / 8) - (((q : ℤ) : ℚ)) = (r : ℚ) / 8 := by
    push_cast; ring
  have hq : (8 * q + r) / 8 = q := by omega
  have hm : (8 * q + r) % 8 = r := by omega
  rw [hsplit]
  unfold pythonRound roundDiv8
  rw [hfloor, hfrac, hq, hm]
  interval_cases r
  · norm_num
  · norm_num
  · norm_num
  · norm_num
  · norm_num
    by_cases hpar : q % 2 = 0
    · rw [if_pos (show (2 : ℤ) ∣ (q : ℤ) by omega), if_pos hpar]
    · rw [if_neg (show ¬ (2 : ℤ) ∣ (q : ℤ) by omega), if_neg hpar]
  · norm_num
  · norm_num
  · norm_num

theorem pythonRound_avg (L C : ℕ) :
    pythonRound (((L : ℚ) / 4 + (C : ℚ) * (3/4)) / 2) =
      (roundDiv8 (L + 3 * C) : ℤ) := by
  have h : ((L : ℚ) / 4 + (C : ℚ) * (3/4)) / 2 = ((L + 3 * C : ℕ) : ℚ) / 8 := by
    push_cast; ring
  rw [h, pythonRound_natDiv8]

theorem estimate_tokens_eq (text : String) :
    estimate_tokens text =
      (roundDiv8 (text.length + 3 * (pySplitSpace text.data).length) : ℤ) := by
  unfold estimate_tokens
  exact pythonRound_avg text.length (pySplitSpace text.data).length

theorem estimateClaimWS_eq (text : String) :
    estimateClaimWS text =
      (roundDiv8 (text.length + 3 * wsWords text.data) : ℤ) := by
  unfold estimateClaimWS
  exact pythonRound_avg text.length (wsWords text.data)

/-
Helper lemmas: the budget-trimming loop.
-/

theorem totalTokens_nil : totalTokens [] = 0 := rfl

theorem totalTokens_cons (e : GptMsg) (rest : List GptMsg) :
    totalTokens (e :: rest) = estimate_tokens e.content + totalTokens rest := by
  simp [totalTokens]

theorem trimWhile_suffix (t : Int) (g : List GptMsg) :
    (trimWhile t g) <:+ g := by
  induction g generalizing t with
  | nil => exact List.suffix_refl _
  | cons e rest ih =>
    rw [trimWhile]
    split
    · exact (ih _).trans (List.suffix_cons e rest)
    · exact List.suffix_refl _

theorem trimWhile_total_le (g : List GptMsg) :
    ∀ t, t = totalTokens g → totalTokens (trimWhile t g) ≤ MAX_GPT_TOKENS := by
  induction g with
  | nil =>
    intro t _
    rw [trimWhile, totalTokens_nil]
    norm_num [MAX_GPT_TOKENS]
  | cons e rest ih =>
    intro t ht
    rw [trimWhile]
    split
    · exact ih _ (by rw [ht, totalTokens_cons]; ring)
    · next h => rw [← ht]; omega

theorem trimWhile_maximal (g : List GptMsg) :
    ∀ t, t = totalTokens g → ∀ s : List GptMsg, s <:+ g →
      (trimWhile t g).length < s.length → MAX_GPT_TOKENS < totalTokens s := by
  induction g with
  | nil =>
    intro t _ s hs hlen
    rw [List.suffix_nil.mp hs] at hlen
    simp at hlen
  | cons e rest ih =>
    intro t ht s hs hlen
    by_cases hmax : MAX_GPT_TOKENS < t
    · rw [trimWhile, if_pos hmax] at hlen
      rcases List.suffix_cons_iff.mp hs with rfl | hs'
      · rw [← ht]; exact hmax
      · exact ih _ (by rw [ht, totalTokens_cons]; ring) s hs' hlen
    · rw [trimWhile, if_neg hmax] at hlen
      exact absurd hs.length_le (by omega)

theorem trimWhile_noop (t : Int) (g : List GptMsg)
    (h : ¬ MAX_GPT_TOKENS < t) : trimWhile t g = g := by
  cases g with
  | nil => rfl
  | cons e rest => rw [trimWhile, if_neg h]

/-
Helper lemmas: the pool scan and the merge walk.
-/

theorem pyScanFuel_fst_mem (pred : MessageInfo → Bool) :
    ∀ (fuel : Nat) (l : List MessageInfo) (k : Nat) (x : MessageInfo),
      x ∈ (pyScanFuel pred fuel l k).1 → x ∈ l ∧ pred x = true := by
  intro fuel
  induction fuel with
  | zero => intro l k x hx; simp [pyScanFuel] at hx
  | succ n ih =>
    intro l k x hx
    rw [pyScanFuel] at hx
    split at hx
    · next h =>
      dsimp only at hx
      split at hx
      · next hpred =>
        dsimp only at hx
        rcases List.mem_cons.mp hx with rfl | hx'
        · exact ⟨List.get_mem l k h, hpred⟩
        · obtain ⟨hmem, hp⟩ := ih _ _ _ hx'
          exact ⟨List.mem_of_mem_erase hmem, hp⟩
      · next hpred => exact ih _ _ _ hx
    · simp at hx

theorem pyScanFuel_snd_mem (pred : MessageInfo → Bool) :
    ∀ (fuel : Nat) (l : List MessageInfo) (k : Nat) (x : MessageInfo),
      x ∈ (pyScanFuel pred fuel l k).2 → x ∈ l := by
  intro fuel
  induction fuel with
  | zero => intro l k x hx; simpa [pyScanFuel] using hx
  | succ n ih =>
    intro l k x hx
    rw [pyScanFuel] at hx
    split at hx
    · next h =>
      dsimp only at hx
      split at hx
      · next hpred =>
        dsimp only at hx
        exact List.mem_of_mem_erase (ih _ _ _ hx)
      · next hpred => exact ih _ _ _ hx
    · simpa using hx

theorem mergeGo_mem :
    ∀ (ws pool : List MessageInfo) (prev : Option MessageInfo) (x : MessageInfo),
      x ∈ mergeGo pool prev ws →
        x ∈ ws ∨ (x ∈ pool ∧ ∃ m ∈ ws, x.time < m.time) := by
  intro ws
  induction ws with
  | nil => intro pool prev x hx; simp [mergeGo] at hx
  | cons m rest ih =>
    intro pool prev x hx
    rw [mergeGo] at hx
    rcases List.mem_append.mp hx with hx1 | hx2
    · obtain ⟨hmem, hp⟩ := pyScanFuel_fst_mem _ _ _ _ _ hx1
      have ht : x.time < m.time := by
        have := (Bool.and_eq_true _ _).mp hp
        exact of_decide_eq_true this.1
      exact Or.inr ⟨hmem, m, List.mem_cons_self m rest, ht⟩
    · rcases List.mem_cons.mp hx2 with rfl | hx3
      · exact Or.inl (List.mem_cons_self x rest)
      · rcases ih _ _ _ hx3 with hw | ⟨hpool, m', hm', ht'⟩
        · exact Or.inl (List.mem_cons_of_mem m hw)
        · exact Or.inr ⟨pyScanFuel_snd_mem _ _ _ _ _ hpool, m',
            List.mem_cons_of_mem m hm', ht'⟩

theorem buildExtraPool_not_mem_window (db : DB) (tid : Nat)
    (window : List MessageInfo) (e : MessageInfo)
    (he : e ∈ buildExtraPool db tid window) : e ∉ window := by
  match window with
  | [] => simp [buildExtraPool] at he
  | w0 :: ws =>
    rw [buildExtraPool] at he
    have := (List.mem_filter.mp he).2
    simpa using this

/-
Helper lemmas: store lookups and the persist step.
-/

theorem head?_filter_some {α : Type} (p : α → Bool) (l : List α) (x : α)
    (h : (l.filter p).head? = some x) : x ∈ l ∧ p x = true := by
  have hm : x ∈ l.filter p := List.mem_of_mem_head? h
  exact List.mem_filter.mp hm

theorem head?_filter_isSome {α : Type} (p : α → Bool) (l : List α) :
    ((l.filter p).head?).isSome = true ↔ ∃ x ∈ l, p x = true := by
  rw [List.head?_isSome, ne_eq, List.filter_eq_nil_iff]
  push_neg
  simp

theorem get_thread_some (db : DB) (pf tn : String) (t : ThreadRow)
    (h : get_thread db pf tn = some t) :
    t ∈ db.threads ∧ t.thread_name = tn ∧ t.platform = pf := by
  unfold get_thread at h
  obtain ⟨hmem, hp⟩ := head?_filter_some _ _ _ h
  simp only [Bool.and_eq_true, beq_iff_eq] at hp
  exact ⟨hmem, hp.1, hp.2⟩

theorem get_message_isSome_iff (db : DB) (pf : String) (mi : MessageInfo) :
    (get_message db pf mi).isSome = true ↔
      ((∃ t ∈ db.threads, t.platform = pf) ∧
        ∃ m ∈ db.messages, m.username = mi.username ∧ m.message = mi.message ∧
          m.time = mi.time) := by
  unfold get_message
  split
  · next hany =>
    have hthr : ∃ t ∈ db.threads, t.platform = pf := by
      simpa using hany
    rw [head?_filter_isSome]
    simp only [Bool.and_eq_true, beq_iff_eq]
    constructor
    · rintro ⟨m, hm, ⟨h1, h2⟩, h3⟩
      exact ⟨hthr, m, hm, h1, h2, h3⟩
    · rintro ⟨-, m, hm, h1, h2, h3⟩
      exact ⟨m, hm, ⟨h1, h2⟩, h3⟩
  · next hany =>
    constructor
    · intro h; simp at h
    · rintro ⟨⟨t, ht, hpf⟩, -⟩
      exact absurd (by simpa using ⟨t, ht, hpf⟩) hany

theorem get_message_isSome_append (db : DB) (pf : String) (mi : MessageInfo)
    (rows : List MessageRow)
    (h : (get_message db pf mi).isSome = true) :
    (get_message { db with messages := db.messages ++ rows } pf mi).isSome = true := by
  rw [get_message_isSome_iff] at h ⊢
  obtain ⟨⟨t, ht, h1⟩, m, hm, hm1, hm2, hm3⟩ := h
  exact ⟨⟨t, ht, h1⟩, m, List.mem_append_left _ hm, hm1, hm2, hm3⟩

theorem ensureThread_threads_has (db : DB) (pf tn : String) :
    ∃ t ∈ (ensureThread db pf tn).1.threads, t.thread_name = tn ∧ t.platform = pf := by
  unfold ensureThread
  cases hg : get_thread db pf tn with
  | some t =>
    obtain ⟨hmem, h1, h2⟩ := get_thread_some db pf tn t hg
    exact ⟨t, hmem, h1, h2⟩
  | none =>
    refine ⟨⟨nextThreadId db, tn, pf⟩, ?_, rfl, rfl⟩
    simp

theorem ensureThread_eq_self (db : DB) (pf tn : String)
    (h : ∃ t ∈ db.threads, t.thread_name = tn ∧ t.platform = pf) :
    (ensureThread db pf tn).1 = db := by
  unfold ensureThread
  cases hg : get_thread db pf tn with
  | some t => rfl
  | none =>
    exfalso
    unfold get_thread at hg
    rw [List.head?_eq_none_iff, List.filter_eq_nil_iff] at hg
    obtain ⟨t, ht, h1, h2⟩ := h
    exact hg t ht (by simp [h1, h2])

theorem ensureThread_bots (db : DB) (pf tn : String) :
    (ensureThread db pf tn).1.bots = db.bots := by
  unfold ensureThread
  cases get_thread db pf tn <;> rfl

theorem assignIds_mem (mi : MessageInfo) :
    ∀ (l : List MessageInfo) (n tid : Nat), mi ∈ l →
      ∃ r ∈ assignIds n tid l, r.username = mi.username ∧
        r.message = mi.message ∧ r.time = mi.time := by
  intro l
  induction l with
  | nil => intro n tid h; simp at h
  | cons a rest ih =>
    intro n tid h
    rcases List.mem_cons.mp h with rfl | h'
    · exact ⟨⟨n, tid, mi.username, mi.message, mi.time⟩,
        List.mem_cons_self _ _, rfl, rfl, rfl⟩
    · obtain ⟨r, hr, h1, h2, h3⟩ := ih (n + 1) tid h'
      exact ⟨r, List.mem_cons_of_mem _ hr, h1, h2, h3⟩

theorem gptPersist_eq_of (db : DB) (pf tn : String) (w : List MessageInfo)
    (h1 : (ensureThread db pf tn).1 = db)
    (h2 : w.filter (persistKeep db pf) = []) :
    gptPersist db pf tn w = db := by
  show { (ensureThread db pf tn).1 with
         messages := (ensureThread db pf tn).1.messages ++
           assignIds (nextMessageId (ensureThread db pf tn).1)
             (ensureThread db pf tn).2
             (w.filter (persistKeep (ensureThread db pf tn).1 pf)) } = db
  rw [h1, h2]
  rw [show assignIds (nextMessageId db) (ensureThread db pf tn).2 ([] : List MessageInfo) = [] from rfl]
  rw [List.append_nil]

theorem persistKeep_false_after (db : DB) (pf tn : String)
    (w : List MessageInfo) (mi : MessageInfo) (hmi : mi ∈ w) :
    persistKeep (gptPersist db pf tn w) pf mi = false := by
  have hthr : ∃ t ∈ (gptPersist db pf tn w).threads, t.platform = pf := by
    obtain ⟨t, ht, _, h2⟩ := ensureThread_threads_has db pf tn
    exact ⟨t, ht, h2⟩
  cases hk : persistKeep (ensureThread db pf tn).1 pf mi with
  | true =>
    have hkept : mi ∈ (w.filter (persistKeep (ensureThread db pf tn).1 pf)) :=
      List.mem_filter.mpr ⟨hmi, hk⟩
    obtain ⟨r, hr, h1, h2, h3⟩ :=
      assignIds_mem mi _ (nextMessageId (ensureThread db pf tn).1)
        (ensureThread db pf tn).2 hkept
    have hsome : (get_message (gptPersist db pf tn w) pf mi).isSome = true := by
      rw [get_message_isSome_iff]
      exact ⟨hthr, r, List.mem_append_right _ hr, h1, h2, h3⟩
    simp [persistKeep, hsome]
  | false =>
    cases hgm : (get_message (ensureThread db pf tn).1 pf mi).isSome with
    | true =>
      have hsome : (get_message (gptPersist db pf tn w) pf mi).isSome = true :=
        get_message_isSome_append _ _ _ _ hgm
      simp [persistKeep, hsome]
    | false =>
      have hgb : (get_bot (ensureThread db pf tn).1 pf mi.username).isSome = true := by
        revert hk
        simp [persistKeep, hgm]
      have hgb' : (get_bot (gptPersist db pf tn w) pf mi.username).isSome = true := hgb
      simp [persistKeep, hgb']

/-
Helper lemmas: the feedback correlator.
-/

theorem stepLatest_isSome (acc : Option CompletionRow) (c : CompletionRow) :
    (stepLatest acc c).isSome = true := by
  cases acc with
  | none => rfl
  | some a =>
    show (if a.id < c.id then some c else some a).isSome = true
    split <;> rfl

theorem foldl_stepLatest_isSome :
    ∀ (l : List CompletionRow) (acc : Option CompletionRow),
      (l.foldl stepLatest acc).isSome = true ↔ acc.isSome = true ∨ l ≠ [] := by
  intro l
  induction l with
  | nil => intro acc; simp
  | cons c rest ih =>
    intro acc
    rw [List.foldl_cons, ih]
    simp [stepLatest_isSome]

theorem pickLatest_isSome (l : List CompletionRow) :
    (pickLatest l).isSome = true ↔ l ≠ [] := by
  rw [pickLatest, foldl_stepLatest_isSome]
  simp

theorem foldl_stepLatest_mem :
    ∀ (l : List CompletionRow) (acc : Option CompletionRow) (c : CompletionRow),
      l.foldl stepLatest acc = some c → c ∈ l ∨ acc = some c := by
  intro l
  induction l with
  | nil => intro acc c h; exact Or.inr h
  | cons a rest ih =>
    intro acc c h
    rw [List.foldl_cons] at h
    rcases ih _ _ h with h1 | h1
    · exact Or.inl (List.mem_cons_of_mem _ h1)
    · cases acc with
      | none =>
        have ha : a = c := by simpa [stepLatest] using h1
        exact Or.inl (ha ▸ List.mem_cons_self a rest)
      | some b =>
        rw [show stepLatest (some b) a =
            if b.id < a.id then some a else some b from rfl] at h1
        by_cases hlt : b.id < a.id
        · rw [if_pos hlt] at h1
          simp only [Option.some.injEq] at h1
          exact Or.inl (h1 ▸ List.mem_cons_self a rest)
        · rw [if_neg hlt] at h1
          exact Or.inr h1

theorem pickLatest_mem (l : List CompletionRow) (c : CompletionRow)
    (h : pickLatest l = some c) : c ∈ l := by
  rcases foldl_stepLatest_mem l none c h with h1 | h1
  · exact h1
  · exact absurd h1 (by simp)

theorem completionMatches_iff (db : DB) (botPk : Nat) (fb : CompletionInfo)
    (threadName : String) (c : CompletionRow) :
    completionMatches db botPk fb threadName c = true ↔
      (c.message = fb.message ∧ c.bot = botPk ∧
        (∃ b ∈ db.bots, b.id = c.bot) ∧
        ∃ m ∈ db.messages, m.id = c.reply_to ∧
          (∃ t ∈ db.threads, t.id = m.thread ∧ t.thread_name = threadName) ∧
          fb.time - 90 < m.time ∧ m.time < fb.time) := by
  unfold completionMatches
  simp only [Bool.and_eq_true, beq_iff_eq, List.any_eq_true, decide_eq_true_eq]
  constructor
  · rintro ⟨⟨⟨h1, h2⟩, b, hb, hb1⟩, m, hm, ⟨⟨hm1, t, ht, ht1, ht2⟩, hm2⟩, hm3⟩
    exact ⟨h1, h2, ⟨b, hb, hb1⟩, m, hm, hm1, ⟨t, ht, ht1, ht2⟩, hm2, hm3⟩
  · rintro ⟨h1, h2, ⟨b, hb, hb1⟩, m, hm, hm1, ⟨t, ht, ht1, ht2⟩, hm2, hm3⟩
    exact ⟨⟨⟨h1, h2⟩, b, hb, hb1⟩, m, hm, ⟨⟨hm1, t, ht, ht1, ht2⟩, hm2⟩, hm3⟩

theorem selectCompletion_isSome_iff (db : DB) (botPk : Nat)
    (fb : CompletionInfo) (threadName : String) :
    (selectCompletion db botPk fb threadName).isSome = true ↔
      ∃ c ∈ db.completions, completionMatches db botPk fb threadName c = true := by
  rw [selectCompletion, pickLatest_isSome, ne_eq, List.filter_eq_nil_iff]
  push_neg
  simp

theorem selectCompletion_mem (db : DB) (botPk : Nat) (fb : CompletionInfo)
    (threadName : String) (c : CompletionRow)
    (h : selectCompletion db botPk fb threadName = some c) :
    c ∈ db.completions := by
  rw [selectCompletion] at h
  exact (List.mem_filter.mp (pickLatest_mem _ _ h)).1

/-
Helper lemmas: the completion echo-stripping.
-/

theorem echoPat_ne_nil (u : List Char) : echoPat u ≠ [] := by
  simp [echoPat]

theorem hasOcc_cons (pat : List Char) (c : Char) (rest : List Char) :
    hasOcc pat (c :: rest) = (pat.isPrefixOf (c :: rest) || hasOcc pat rest) := by
  rw [hasOcc, hasOcc, List.tails_cons, List.any_cons]

theorem pyReplaceFuel_no_occ (pat rep : List Char) :
    ∀ (fuel : Nat) (s : List Char), hasOcc pat s = false →
      pyReplaceFuel pat rep fuel s = s := by
  intro fuel
  induction fuel with
  | zero => intro s _; cases s <;> rfl
  | succ n ih =>
    intro s h
    cases s with
    | nil => rfl
    | cons c rest =>
      rw [hasOcc_cons, Bool.or_eq_false_iff] at h
      rw [pyReplaceFuel, if_neg (by simp [h.1]), ih rest h.2]

theorem pyReplaceFuel_congr (pat rep : List Char) :
    ∀ (f1 f2 : Nat) (s : List Char), s.length ≤ f1 → s.length ≤ f2 →
      pyReplaceFuel pat rep f1 s = pyReplaceFuel pat rep f2 s := by
  intro f1
  induction f1 with
  | zero =>
    intro f2 s h1 _
    have hs : s = [] := List.eq_nil_of_length_eq_zero (Nat.le_zero.mp h1)
    subst hs
    cases f2 <;> rfl
  | succ n ih =>
    intro f2 s h1 h2
    cases s with
    | nil => cases f2 <;> rfl
    | cons c rest =>
      cases f2 with
      | zero => simp at h2
      | succ m =>
        simp only [List.length_cons] at h1 h2
        rw [pyReplaceFuel, pyReplaceFuel]
        by_cases hc : pat ≠ [] ∧ pat.isPrefixOf (c :: rest) = true
        · rw [if_pos hc, if_pos hc]
          have hplen : 1 ≤ pat.length := by
            cases hp : pat with
            | nil => exact absurd hp hc.1
            | cons p ps => simp
          congr 1
          apply ih
          · simp only [List.length_drop, List.length_cons]
            omega
          · simp only [List.length_drop, List.length_cons]
            omega
        · rw [if_neg hc, if_neg hc]
          congr 1
          apply ih <;> omega

theorem pyReplace_of_prefix (pat rep : List Char) (s : List Char)
    (hpat : pat ≠ []) (hpre : pat.isPrefixOf s = true) :
    pyReplace pat rep s = rep ++ pyReplace pat rep (s.drop pat.length) := by
  cases s with
  | nil =>
    cases hp : pat with
    | nil => exact absurd hp hpat
    | cons p ps => rw [hp] at hpre; simp [List.isPrefixOf] at hpre
  | cons c rest =>
    have hplen : 1 ≤ pat.length := by
      cases hp : pat with
      | nil => exact absurd hp hpat
      | cons p ps => simp
    rw [pyReplace, List.length_cons, pyReplaceFuel, if_pos ⟨hpat, hpre⟩]
    congr 1
    rw [pyReplace]
    apply pyReplaceFuel_congr
    · simp only [List.length_drop, List.length_cons]
      omega
    · exact le_refl _

/-
Claim theorems.
-/

/-- C1: the claim says every pool entry lying strictly between consecutive
window timestamps is placed in the merged output.  The code violates this:
`gpt_answer` removes entries from `existing_context` while iterating over
it, so placing one pool entry makes the iterator skip the entry after it.
Here both pool entries (times 3 and 5) lie strictly between the two window
entries (times 0 and 10), yet the merged output keeps only the first and
drops the second. -/
theorem c1_merge_skips_between_entry :
    buildExtraPool c1db 1 c1Window =
      [⟨"carol", "pic1", 3⟩, ⟨"carol", "pic2", 5⟩] ∧
    completeContext (buildExtraPool c1db 1 c1Window) c1Window =
      [⟨"alice", "one", 0⟩, ⟨"carol", "pic1", 3⟩, ⟨"alice", "two", 10⟩] ∧
    (⟨"carol", "pic2", 5⟩ : MessageInfo) ∉
      completeContext (buildExtraPool c1db 1 c1Window) c1Window := by
  decide

/-- C2 (amended): `change_completion_score` finds a completion to update
exactly when the store holds a completion of this bot whose text equals the
feedback text and whose reply-to message lies in the named thread with a
timestamp strictly inside the open window (timestamp - 90 s, timestamp) —
both bounds strict, so a reply-to message timestamped exactly 90 seconds
before the feedback event does not match; and when nothing matches the
store is unchanged. -/
theorem c2_match_condition (db : DB) (botPk : Nat) (offset : Int)
    (fb : CompletionInfo) (threadName : String) :
    ((selectCompletion db botPk fb threadName).isSome = true ↔
      ∃ c ∈ db.completions, c.message = fb.message ∧ c.bot = botPk ∧
        (∃ b ∈ db.bots, b.id = c.bot) ∧
        ∃ m ∈ db.messages, m.id = c.reply_to ∧
          (∃ t ∈ db.threads, t.id = m.thread ∧ t.thread_name = threadName) ∧
          fb.time - 90 < m.time ∧ m.time < fb.time) ∧
    (selectCompletion db botPk fb threadName = none →
      change_completion_score db botPk offset fb threadName = db) := by
  constructor
  · rw [selectCompletion_isSome_iff]
    constructor
    · rintro ⟨c, hc, hm⟩
      exact ⟨c, hc, (completionMatches_iff db botPk fb threadName c).mp hm⟩
    · rintro ⟨c, hc, hm⟩
      exact ⟨c, hc, (completionMatches_iff db botPk fb threadName c).mpr hm⟩
  · intro h
    unfold change_completion_score
    rw [h]

/-- C2 witness: at the concrete boundary store nothing matches, and the
update leaves the store unchanged. -/
theorem c2_match_witness :
    change_completion_score c2db 1 5 ⟨"resp", 100⟩ "T" = c2db :=
  (c2_match_condition c2db 1 5 ⟨"resp", 100⟩ "T").2 (by decide)

/-- C2 counterexample: the stored completion's reply-to message is
timestamped exactly 90 seconds before the feedback event, so the claim's
closed-at-the-bottom window `[t - 90, t)` admits it — yet the code's
strictly-open bound rejects it and the score update does not happen. -/
theorem c2_boundary_counterexample :
    (∃ c ∈ c2db.completions, c.message = "resp" ∧ c.bot = 1 ∧
      ∃ m ∈ c2db.messages, m.id = c.reply_to ∧
        (∃ t ∈ c2db.threads, t.id = m.thread ∧ t.thread_name = "T") ∧
        (100 : Int) - 90 ≤ m.time ∧ m.time < 100) ∧
    change_completion_score c2db 1 5 ⟨"resp", 100⟩ "T" = c2db := by
  decide

/-- C3 (amended): the already-present skip of the persist step is decided
by `__get_message`, whose query adds `Thread.platform == self.platform`
without joining `Thread` to `Message` (a cross join): an entry counts as
already present exactly when a message with the identical
`{username, text, timestamp}` tuple exists anywhere in the store — under
any thread — and at least one thread row of this platform exists.  Thread
identity is not consulted. -/
theorem c3_skip_condition (db : DB) (platform : String) (mi : MessageInfo) :
    (get_message db platform mi).isSome = true ↔
      ((∃ t ∈ db.threads, t.platform = platform) ∧
        ∃ m ∈ db.messages, m.username = mi.username ∧ m.message = mi.message ∧
          m.time = mi.time) :=
  get_message_isSome_iff db platform mi

/-- C3 counterexample: the store holds the tuple `{"u", "hi", 5}` only
under thread "A" (id 1); no message of thread "B" (id 2) carries it.  The
claim says persisting this tuple into thread "B" must not be skipped — yet
the merge-persist step stores nothing. -/
theorem c3_cross_thread_counterexample :
    (∀ m ∈ c3db.messages,
      ¬(m.thread = 2 ∧ m.username = "u" ∧ m.message = "hi" ∧ m.time = 5)) ∧
    get_thread c3db "p" "B" = some ⟨2, "B", "p"⟩ ∧
    gptPersist c3db "p" "B" [⟨"u", "hi", 5⟩] = c3db := by
  decide

/-- C4 (amended): `estimate_tokens` is the banker's-rounded average of
`len(text) / 4` and `0.75` times the number of segments `text.split(" ")`
produces — a split on the space character only, so tab- or
newline-separated words count as a single segment and the empty string
counts as one segment; equivalently the banker's rounding of
`(len + 3 * segments) / 8`.  As a pure function it is deterministic. -/
theorem c4_estimate_formula (text : String) :
    estimate_tokens text =
      (roundDiv8 (text.length + 3 * (pySplitSpace text.data).length) : ℤ) :=
  estimate_tokens_eq text

/-- C4 counterexample: on the tab-separated string `"a\tb\tc\td\te\tf\tg\th"`
the code sees one space-split segment and returns 2, while the claim's
whitespace-delimited word count (8 words) yields 5. -/
theorem c4_whitespace_counterexample :
    estimate_tokens "a\tb\tc\td\te\tf\tg\th" ≠
      estimateClaimWS "a\tb\tc\td\te\tf\tg\th" := by
  rw [estimate_tokens_eq, estimateClaimWS_eq]
  decide

/-- C5: the trimming loop of `__format_context` returns a suffix of the
formatted entries whose total estimated cost fits the budget; it is the
longest such suffix (entries are dropped oldest-first only while the total
exceeds the budget); a sequence already within budget is returned
unchanged; and the loop is total — including when it must empty the
sequence. -/
theorem c5_trimmer_correct (g : List GptMsg) :
    (trimWhile (totalTokens g) g) <:+ g ∧
    totalTokens (trimWhile (totalTokens g) g) ≤ MAX_GPT_TOKENS ∧
    (∀ s : List GptMsg, s <:+ g → totalTokens s ≤ MAX_GPT_TOKENS →
      s.length ≤ (trimWhile (totalTokens g) g).length) ∧
    (totalTokens g ≤ MAX_GPT_TOKENS → trimWhile (totalTokens g) g = g) := by
  refine ⟨trimWhile_suffix _ _, trimWhile_total_le g _ rfl, ?_, ?_⟩
  · intro s hs htot
    by_contra hlen
    push_neg at hlen
    exact absurd htot (not_le.mpr (trimWhile_maximal g _ rfl s hs hlen))
  · intro h
    exact trimWhile_noop _ _ (not_lt.mpr h)

/-- C5 witness: a one-entry context is within budget and survives the trim
unchanged. -/
theorem c5_trimmer_witness :
    trimWhile (totalTokens [⟨"user", "u: hi"⟩]) [⟨"user", "u: hi"⟩] =
      [⟨"user", "u: hi"⟩] :=
  (c5_trimmer_correct [⟨"user", "u: hi"⟩]).2.2.2 (by
    have h : totalTokens [⟨"user", "u: hi"⟩] = estimate_tokens "u: hi" := by
      simp [totalTokens]
    rw [h, estimate_tokens_eq]
    decide)

/-- C6: running the merge-persist step a second time with the same window,
thread and platform leaves the store exactly as the first run left it — in
particular no new message rows appear. -/
theorem c6_persist_idempotent (db : DB) (pf tn : String)
    (w : List MessageInfo) :
    gptPersist (gptPersist db pf tn w) pf tn w = gptPersist db pf tn w := by
  apply gptPersist_eq_of
  · apply ensureThread_eq_self
    obtain ⟨t, ht, h1, h2⟩ := ensureThread_threads_has db pf tn
    exact ⟨t, ht, h1, h2⟩
  · rw [List.filter_eq_nil_iff]
    intro mi hmi
    rw [persistKeep_false_after db pf tn w mi hmi]
    simp

/-- C7: a pool entry whose timestamp is not less than any window timestamp
never satisfies the placement test of any merge step, so it is absent from
the merged output. -/
theorem c7_after_window_dropped (db : DB) (tid : Nat) (w0 : MessageInfo)
    (ws : List MessageInfo) (e : MessageInfo)
    (hpool : e ∈ buildExtraPool db tid (w0 :: ws))
    (hafter : ∀ m ∈ w0 :: ws, m.time ≤ e.time) :
    e ∉ completeContext (buildExtraPool db tid (w0 :: ws)) (w0 :: ws) := by
  intro hmem
  rcases mergeGo_mem _ _ _ _ hmem with hwin | ⟨_, m, hm, ht⟩
  · exact buildExtraPool_not_mem_window db tid _ e hpool hwin
  · exact absurd ht (not_lt.mpr (hafter m hm))

/-- C7 witness: a store message timestamped 20, after the whole window
(times 0 and 10), is dropped from the merge. -/
theorem c7_after_window_witness :
    (⟨"carol", "late", 20⟩ : MessageInfo) ∉
      completeContext (buildExtraPool c7db 1 c1Window) c1Window :=
  c7_after_window_dropped c7db 1 ⟨"alice", "one", 0⟩ [⟨"alice", "two", 10⟩]
    ⟨"carol", "late", 20⟩ (by decide) (by decide)

/-- C8 (amended): the orchestrator removes every left-to-right
non-overlapping occurrence of `"{username}: "` from the model's result and
then strips leading whitespace — not only a leading echo.  When no
occurrence exists the result is merely left-stripped, and a leading
occurrence is removed with the scan continuing after it. -/
theorem c8_strip_behaviour (u s : List Char) :
    (hasOcc (echoPat u) s = false → stripEcho u s = pyLstrip s) ∧
    ((echoPat u).isPrefixOf s = true →
      stripEcho u s =
        pyLstrip (pyReplace (echoPat u) [] (s.drop (echoPat u).length))) := by
  constructor
  · intro h
    rw [stripEcho, pyReplace, pyReplaceFuel_no_occ _ _ _ _ h]
  · intro h
    rw [stripEcho, pyReplace_of_prefix _ _ _ (echoPat_ne_nil u) h,
      List.nil_append]

/-- C8 witness: with no occurrence of `"bot: "` the completion is only
left-stripped. -/
theorem c8_strip_witness :
    stripEcho "bot".data "  hi there".data = pyLstrip "  hi there".data :=
  (c8_strip_behaviour "bot".data "  hi there".data).1 (by decide)

/-- C8 counterexample: `"hello bot: world"` contains `"bot: "` only in
non-leading position; the claim says such an occurrence remains in the
returned text, but the code's global `str.replace` removes it, producing
`"hello world"`. -/
theorem c8_nonleading_counterexample :
    stripEcho "bot".data "hello bot: world".data = "hello world".data ∧
    hasOcc (echoPat "bot".data) "hello bot: world".data = true ∧
    (echoPat "bot".data).isPrefixOf "hello bot: world".data = false ∧
    hasOcc (echoPat "bot".data)
      (stripEcho "bot".data "hello bot: world".data) = false := by
  decide

/-- C9: whenever `summarise_url` returns `None` — fetch failure or empty
fetch, extraction failure, a model service error, or a result containing
the `"NO CONTENT"` marker case-insensitively — the store is exactly as it
was: no thread, message or completion row is created or modified. -/
theorem c9_no_write_on_none (db : DB) (botPk : Nat) (platform : String)
    (fetchResp extractResult gptResult : Option String)
    (msg : MessageInfo) (threadName : String)
    (h : (summarise_url db botPk platform fetchResp extractResult gptResult
        msg threadName).2 = none) :
    (summarise_url db botPk platform fetchResp extractResult gptResult
        msg threadName).1 = db := by
  unfold summarise_url at h ⊢
  cases fetchResp with
  | none => rfl
  | some r =>
    by_cases hr : r = ""
    · simp [hr]
    · simp only [if_neg hr] at h ⊢
      cases extractResult with
      | none => rfl
      | some text_ =>
        cases gptResult with
        | none => rfl
        | some ct =>
          by_cases hnc : hasOcc "NO CONTENT".data (pyUpper ct.data) = true
          · simp [hnc]
          · simp only [Bool.not_eq_true] at hnc
            simp [hnc] at h

/-- C9 witness: a failed fetch writes nothing to the empty store. -/
theorem c9_no_write_witness :
    (summarise_url emptyDb 1 "p" none none none ⟨"u", "m", 1⟩ "T").1 =
      emptyDb :=
  c9_no_write_on_none emptyDb 1 "p" none none none ⟨"u", "m", 1⟩ "T" rfl

/-- C10: when the correlator selects completion `c` (with completion ids
unique, as primary keys are), the update leaves the bot, thread and
message tables untouched; the completion table is rewritten so that the
selected row keeps its text, bot and reply-to but gains exactly `offset`
on its score, and every other completion row is kept unchanged. -/
theorem c10_frame_effect (db : DB) (botPk : Nat) (offset : Int)
    (fb : CompletionInfo) (threadName : String) (c : CompletionRow)
    (hsel : selectCompletion db botPk fb threadName = some c)
    (hids : (db.completions.map (fun x => x.id)).Nodup) :
    (change_completion_score db botPk offset fb threadName).bots = db.bots ∧
    (change_completion_score db botPk offset fb threadName).threads =
      db.threads ∧
    (change_completion_score db botPk offset fb threadName).messages =
      db.messages ∧
    c ∈ db.completions ∧
    (change_completion_score db botPk offset fb threadName).completions =
      db.completions.map (fun x =>
        if x.id = c.id then { x with score := x.score + offset } else x) ∧
    { c with score := c.score + offset } ∈
      (change_completion_score db botPk offset fb threadName).completions ∧
    (∀ x ∈ db.completions, x ≠ c →
      x ∈ (change_completion_score db botPk offset fb threadName).completions) := by
  have hcmem : c ∈ db.completions :=
    selectCompletion_mem db botPk fb threadName c hsel
  have hch : change_completion_score db botPk offset fb threadName =
      { db with
        completions := db.completions.map (fun x =>
          if x.id = c.id then { x with score := x.score + offset } else x) } := by
    unfold change_completion_score
    rw [hsel]
  refine ⟨by rw [hch], by rw [hch], by rw [hch], hcmem, by rw [hch], ?_, ?_⟩
  · rw [hch]
    have hc : (fun x : CompletionRow =>
        if x.id = c.id then { x with score := x.score + offset } else x) c =
        { c with score := c.score + offset } := by simp
    exact hc ▸ List.mem_map_of_mem _ hcmem
  · intro x hx hne
    rw [hch]
    have hid : x.id ≠ c.id := by
      intro he
      exact hne (List.inj_on_of_nodup_map hids hx hcmem he)
    have hxk : (fun y : CompletionRow =>
        if y.id = c.id then { y with score := y.score + offset } else y) x = x := by
      simp [hid]
    exact hxk ▸ List.mem_map_of_mem _ hx

/-- C10 witness: in the concrete store the matched completion's score goes
from 0 to 5 and the row keeps its other fields. -/
theorem c10_frame_witness :
    ({ (⟨1, 1, "resp", 1, 0⟩ : CompletionRow) with
        score := (⟨1, 1, "resp", 1, 0⟩ : CompletionRow).score + 5 }) ∈
      (change_completion_score c2db 1 5 ⟨"resp", 99⟩ "T").completions :=
  (c10_frame_effect c2db 1 5 ⟨"resp", 99⟩ "T" ⟨1, 1, "resp", 1, 0⟩ (by decide)
    (by decide)).2.2.2.2.2.1

end Edubot
